import Mathlib

/-!
Shallow embedding of the `frozen-hashbrown` crate (files `src/frozen.rs`,
`src/iter.rs`, `src/lib.rs`) and proofs about its layout computation,
capture, blob encode/decode, restore and raw-iteration engine.

Modelling conventions:
* `usize`/`u64` values are `Nat`s; overflow checks are explicit against
  `U = 2^64` (the crate compiles only on 64-bit targets, see `lib.rs`).
* Addresses are `Nat`s; process memory is a function `Nat → Nat`
  (address to byte value); owned buffers are `List Nat`.
* Rust `assert!`/`assert_eq!` failures (panics) are modelled by the
  `PanicOr.panics` outcome, `Option` results by `Option` inside
  `PanicOr.value`.
* The crate writes structs byte-for-byte via `transmute`; this is modelled
  as declaration-order little-endian 8-byte fields, which is the concrete
  layout the crate itself relies on for its mirror structs on x86_64.
* `Group::WIDTH` is the x86_64/SSE2 value 16 (`lib.rs`).
-/

/-- `2^64`, one past the largest `usize` value on the (only supported)
64-bit targets. -/
def U : Nat := 2 ^ 64

/-- `Group::WIDTH` from `lib.rs` (x86_64 with SSE2). -/
def Group.WIDTH : Nat := 16

/-- Rust `usize::is_power_of_two` (`count_ones() == 1`), in its standard
bit-trick form. -/
def isPow2 (n : Nat) : Bool := n != 0 && (n &&& (n - 1)) == 0

/-- A Rust computation that either panics (failed `assert!`) or returns a
value. -/
inductive PanicOr (α : Type) where
  | panics
  | value (a : α)
deriving DecidableEq

/-- `TableLayout` from `frozen.rs`: byte size of one `(K, V)` slot and the
alignment of the control-byte region. -/
structure TableLayout where
  size : Nat
  ctrl_align : Nat
deriving DecidableEq

/-- `RandomState` from `frozen.rs`: the two sip-hash keys of the std
hasher, carried only as opaque data. -/
structure RandomState where
  k0 : Nat
  k1 : Nat
deriving DecidableEq

/-- `RawTableInner` from `frozen.rs`: the metadata of a hashbrown table.
`ctrl` is the address of the control-byte region. -/
structure RawTableInner where
  bucket_mask : Nat
  ctrl : Nat
  growth_left : Nat
  items : Nat
deriving DecidableEq

/-- `RawTable` from `frozen.rs`. -/
structure RawTable where
  table : RawTableInner
deriving DecidableEq

/-- `HashMap<RandomState>` from `frozen.rs` (the crate's mirror of the
std `HashMap`). -/
structure HashMap where
  hash_builder : RandomState
  table : RawTable
deriving DecidableEq

/-- `FrozenHashMap<RandomState>` from `frozen.rs`: a captured snapshot.
`memory` is the owned byte copy of the table's backing allocation. -/
structure FrozenHashMap where
  table_layout : TableLayout
  hashmap : HashMap
  memory : List Nat
deriving DecidableEq

/-- `TableLayout::calculate_layout_for` from `frozen.rs`.  Asserts that
`buckets` is a power of two (panic on violation), then computes
`ctrl_offset = (size * buckets + (ctrl_align - 1)) & !(ctrl_align - 1)`
and `len = ctrl_offset + buckets + Group::WIDTH` with `checked_mul` /
`checked_add`, returning `none` on overflow.  The 64-bit complement
`!(ctrl_align - 1)` is `(ctrl_align - 1) ^^^ (U - 1)`.  Result:
`some (len, ctrl_offset)` mirrors `Some((layout, ctrl_offset))` with
`layout.size() = len`. -/
def TableLayout.calculate_layout_for (tl : TableLayout) (buckets : Nat) :
    PanicOr (Option (Nat × Nat)) :=
  if isPow2 buckets = false then .panics
  else if U ≤ tl.size * buckets then .value none
  else if U ≤ tl.size * buckets + (tl.ctrl_align - 1) then .value none
  else
    let ctrl_offset :=
      (tl.size * buckets + (tl.ctrl_align - 1)) &&& ((tl.ctrl_align - 1) ^^^ (U - 1))
    if U ≤ ctrl_offset + (buckets + Group.WIDTH) then .value none
    else .value (some (ctrl_offset + (buckets + Group.WIDTH), ctrl_offset))

/-- `RawTableInner::buckets` from `frozen.rs`. -/
def RawTableInner.buckets (t : RawTableInner) : Nat := t.bucket_mask + 1

/-- `RawTableInner::is_empty_singleton` from `frozen.rs`. -/
def RawTableInner.is_empty_singleton (t : RawTableInner) : Bool :=
  t.bucket_mask == 0

/-- `RawTableInner::allocation` from `frozen.rs`: start address and size of
the backing allocation (`ctrl - ctrl_offset`, `layout.size()`); `none` for
the empty singleton or on layout overflow. -/
def RawTableInner.allocation (t : RawTableInner) (table_layout : TableLayout) :
    PanicOr (Option (Nat × Nat)) :=
  if t.is_empty_singleton then .value none
  else
    match table_layout.calculate_layout_for t.buckets with
    | .panics => .panics
    | .value none => .value none
    | .value (some (len, ctrl_offset)) => .value (some (t.ctrl - ctrl_offset, len))

/-- `RawTableInner::reallocation` from `frozen.rs`: `(ctrl_offset,
layout.size())` used by restore and raw iteration. -/
def RawTableInner.reallocation (t : RawTableInner) (table_layout : TableLayout) :
    PanicOr (Option (Nat × Nat)) :=
  if t.is_empty_singleton then .value none
  else
    match table_layout.calculate_layout_for t.buckets with
    | .panics => .panics
    | .value none => .value none
    | .value (some (len, ctrl_offset)) => .value (some (ctrl_offset, len))

/-- `FrozenHashMap::construct_with` from `frozen.rs`.  The caller's byte
view of the live `HashMap` struct is modelled as the struct itself
(`read_unaligned` of the mirror struct is the identity here); `srcMem` is
the source process memory from which `layout.size()` bytes are copied
starting at the allocation's start address. -/
def FrozenHashMap.construct_with (srcMem : Nat → Nat) (hashmap : HashMap)
    (table_layout : TableLayout) : PanicOr FrozenHashMap :=
  match hashmap.table.table.allocation table_layout with
  | .panics => .panics
  | .value (some (location, len)) =>
      .value { table_layout := table_layout, hashmap := hashmap,
               memory := (List.range len).map (fun i => srcMem (location + i)) }
  | .value none =>
      .value { table_layout := table_layout, hashmap := hashmap, memory := [] }

/-- Little-endian bytes of a `usize` value (`to_ne_bytes` on x86_64). -/
def toBytes8 (n : Nat) : List Nat :=
  [n % 256, n / 2 ^ 8 % 256, n / 2 ^ 16 % 256, n / 2 ^ 24 % 256,
   n / 2 ^ 32 % 256, n / 2 ^ 40 % 256, n / 2 ^ 48 % 256, n / 2 ^ 56 % 256]

/-- Little-endian value of a byte list (`from_ne_bytes` on x86_64). -/
def fromLE (l : List Nat) : Nat := l.foldr (fun b acc => b + 256 * acc) 0

/-- Read the 8-byte little-endian `usize` at byte offset `i` (the
`read_unaligned` of one field at offset `i`). -/
def readU64 (bytes : List Nat) (i : Nat) : Nat := fromLE ((bytes.drop i).take 8)

/-- In-memory bytes of `TableLayout` (two 8-byte fields, declaration
order), as written by `store`'s first `extend_from_slice`. -/
def TableLayout.asBytes (tl : TableLayout) : List Nat :=
  toBytes8 tl.size ++ toBytes8 tl.ctrl_align

/-- In-memory bytes of `HashMap<RandomState>` (six 8-byte fields,
declaration order), as written by `store`'s second `extend_from_slice`. -/
def HashMap.asBytes (hm : HashMap) : List Nat :=
  toBytes8 hm.hash_builder.k0 ++ toBytes8 hm.hash_builder.k1 ++
  toBytes8 hm.table.table.bucket_mask ++ toBytes8 hm.table.table.ctrl ++
  toBytes8 hm.table.table.growth_left ++ toBytes8 hm.table.table.items

/-- `FrozenHashMap::store` from `frozen.rs`: the raw bytes of
`table_layout`, then of `hashmap`, then `memory.len().to_ne_bytes()`,
then `memory`. -/
def FrozenHashMap.store (f : FrozenHashMap) : List Nat :=
  f.table_layout.asBytes ++ f.hashmap.asBytes ++
  toBytes8 f.memory.length ++ f.memory

/-- `FrozenHashMap::load` from `frozen.rs`.  Reads the same fixed layout
back with a running cursor, checking `cursor + chunk > bytes.len()` before
each record and finally `cursor + length != bytes.len()`. -/
def FrozenHashMap.load (bytes : List Nat) : Option FrozenHashMap :=
  -- cursor = 0, chunk = size_of::<TableLayout>() = 16
  if bytes.length < 0 + 16 then none
  else
    let table_layout : TableLayout :=
      { size := readU64 bytes 0, ctrl_align := readU64 bytes 8 }
    -- cursor = 16, chunk = size_of::<HashMap<RandomState>>() = 48
    if bytes.length < 16 + 48 then none
    else
      let hashmap : HashMap :=
        { hash_builder := { k0 := readU64 bytes 16, k1 := readU64 bytes 24 },
          table := { table :=
            { bucket_mask := readU64 bytes 32, ctrl := readU64 bytes 40,
              growth_left := readU64 bytes 48, items := readU64 bytes 56 } } }
      -- cursor = 64, chunk = 8 (the length prefix)
      if bytes.length < 64 + 8 then none
      else
        let length := readU64 bytes 64
        if 72 + length ≠ bytes.length then none
        else some { table_layout := table_layout, hashmap := hashmap,
                    memory := bytes.drop 72 }

/-- `FrozenHashMap::reconstruct` from `frozen.rs`, at buffer address
`addr` (the address `self.memory.as_ptr()` of the owned buffer).  Empty
memory returns `none`; a size mismatch fails `assert_eq!` (panics); a
zero relocated address returns `none`; otherwise `ctrl` is patched to
`addr + ctrl_offset` and the patched map is returned. -/
def FrozenHashMap.reconstruct (addr : Nat) (f : FrozenHashMap) :
    PanicOr (Option FrozenHashMap) :=
  if f.memory = [] then .value none
  else
    match f.hashmap.table.table.reallocation f.table_layout with
    | .panics => .panics
    | .value (some (offset, len)) =>
        if len ≠ f.memory.length then .panics
        else
          let address := addr + offset
          if address = 0 then .value none
          else .value (some { f with hashmap.table.table.ctrl := address })
    | .value none => .value none

/-- `RawBucketIter` from `iter.rs`.  `stop` is the source's `end` field;
`memBase` is the address of the borrowed buffer `memory` (the source
keeps only the raw pointers, the buffer address makes the byte reads
explicit here). -/
structure RawBucketIter where
  base : Nat
  cur : Nat
  stop : Nat
  bucket_size : Nat
  items : Nat
  memBase : Nat
  memory : List Nat
deriving DecidableEq

/-- The byte the iterator reads at address `a` (dereference of `cur`). -/
def RawBucketIter.read (it : RawBucketIter) (a : Nat) : Nat :=
  it.memory.getD (a - it.memBase) 0

/-- The `while self.cur < self.end` loop body of `RawBucketIter::next`,
with the loop's fuel `stop - cur` made explicit (the loop advances `cur`
by one per iteration, so it runs at most `stop - cur` times; `scan`
below always supplies exactly that).  A control byte with most
significant bit 0 (`byte & 0x80 == 0`) is an occupied slot; `cur` is
advanced first, then the slot address `base - (cur - base) * bucket_size`
is produced and `items` decremented. -/
def RawBucketIter.scanAux : RawBucketIter → Nat → Option (Nat × RawBucketIter)
  | _, 0 => none
  | it, fuel + 1 =>
    if it.cur < it.stop then
      if it.read it.cur &&& 0x80 == 0 then
        some (it.base - (it.cur + 1 - it.base) * it.bucket_size,
              { it with cur := it.cur + 1, items := it.items - 1 })
      else
        RawBucketIter.scanAux { it with cur := it.cur + 1 } fuel
    else none

/-- The scan loop of `RawBucketIter::next` run to completion. -/
def RawBucketIter.scan (it : RawBucketIter) : Option (Nat × RawBucketIter) :=
  it.scanAux (it.stop - it.cur)

/-- `RawBucketIter::next` from `iter.rs`: `None` once `items` hits zero,
otherwise the scan loop. -/
def RawBucketIter.next (it : RawBucketIter) : Option (Nat × RawBucketIter) :=
  if it.items = 0 then none else it.scan

/-- Repeated `next` collecting every yielded address; each yield
decrements `items`, so `items` steps of fuel drain the iterator. -/
def RawBucketIter.emitAux : RawBucketIter → Nat → List Nat
  | _, 0 => []
  | it, fuel + 1 =>
    match it.next with
    | none => []
    | some (a, it') => a :: it'.emitAux fuel

/-- The full address sequence produced by exhausting the iterator. -/
def RawBucketIter.emit (it : RawBucketIter) : List Nat := it.emitAux it.items

/-- `FrozenHashMap::raw_iter` from `iter.rs`, at buffer address `addr`:
recompute the layout (`reallocation`), refuse empty memory and a size
mismatch, otherwise build the iterator with `base = cur = addr + offset`
and `end = addr + memory.len()`. -/
def FrozenHashMap.raw_iter (addr : Nat) (f : FrozenHashMap) :
    PanicOr (Option RawBucketIter) :=
  match f.hashmap.table.table.reallocation f.table_layout with
  | .panics => .panics
  | .value (some (offset, len)) =>
      if f.memory = [] then .value none
      else if len ≠ f.memory.length then .value none
      else .value (some
        { base := addr + offset, cur := addr + offset,
          stop := addr + f.memory.length,
          bucket_size := f.table_layout.size,
          items := f.hashmap.table.table.items,
          memBase := addr, memory := f.memory })
  | .value none => .value none

/-- The address sequence of `raw_iter` at buffer address `addr`
(`.value none` when no iterator is produced). -/
def FrozenHashMap.rawYield (addr : Nat) (f : FrozenHashMap) :
    PanicOr (Option (List Nat)) :=
  match f.raw_iter addr with
  | .panics => .panics
  | .value none => .value none
  | .value (some it) => .value (some it.emit)

/-- Spec-side `round_up(x, a)`: least multiple of `a` that is `≥ x`
(for `a ∣ x + a - 1` arithmetic, `((x + a - 1) / a) * a`). -/
def roundUp (x a : Nat) : Nat := ((x + a - 1) / a) * a

/-- The control byte at index `j` of a snapshot buffer whose control
region starts at byte offset `off` is occupied (most significant bit 0). -/
def ctrlOccupied (memory : List Nat) (off j : Nat) : Bool :=
  memory.getD (off + j) 0 &&& 0x80 == 0

/-- Spec-side entry set of a live table: for every occupied control byte
`j` (most significant bit 0) among the first `bucket_mask + 1` control
bytes at `ctrl`, the `size`-byte slot at `ctrl - (j+1) * size`, read from
source memory.  The empty singleton has no entries. -/
def sourceSlotBytes (srcMem : Nat → Nat) (ctrl size j : Nat) : List Nat :=
  (List.range size).map (fun b => srcMem (ctrl - (j + 1) * size + b))

/-- Spec-side entry list of a live table, in control-byte order. -/
def sourceEntries (srcMem : Nat → Nat) (hm : HashMap) (tl : TableLayout) :
    List (List Nat) :=
  if hm.table.table.bucket_mask = 0 then []
  else
    ((List.range (hm.table.table.bucket_mask + 1)).filter
        (fun j => srcMem (hm.table.table.ctrl + j) &&& 0x80 == 0)).map
      (sourceSlotBytes srcMem hm.table.table.ctrl tl.size)

/-- Reinterpreting a yielded slot address per the slot type: the `size`
bytes of the owning buffer (based at `memBase`) starting at address `a`. -/
def readSlot (memory : List Nat) (memBase size a : Nat) : List Nat :=
  (List.range size).map (fun b => memory.getD (a - memBase + b) 0)

/-- Restore a decoded snapshot at buffer address `addr`, raw-iterate the
result and reinterpret every yielded address per the slot type; empty
when restore or iteration yields nothing. -/
def restoredEntries (addr : Nat) (f : FrozenHashMap) : List (List Nat) :=
  match f.reconstruct addr with
  | .value (some g) =>
      match g.rawYield addr with
      | .value (some ys) => ys.map (readSlot g.memory addr g.table_layout.size)
      | _ => []
  | _ => []

/-- The blob layout asserted by the spec (§6): seven 8-byte fields
`slot_stride, control_alignment, bucket_mask, control_pointer,
growth_left, item_count, raw_bytes_length` followed by `raw_bytes`,
with no hash-builder fields.  Stated for comparison with `store`. -/
def specBlobLayout (f : FrozenHashMap) : List Nat :=
  toBytes8 f.table_layout.size ++ toBytes8 f.table_layout.ctrl_align ++
  toBytes8 f.hashmap.table.table.bucket_mask ++
  toBytes8 f.hashmap.table.table.ctrl ++
  toBytes8 f.hashmap.table.table.growth_left ++
  toBytes8 f.hashmap.table.table.items ++
  toBytes8 f.memory.length ++ f.memory

/-- The fully right-associated byte string produced by `store`, named so
the field-offset lemmas below can be stated once. -/
def blobOf (s a b0 b1 mask ctrl gl items : Nat) (mem : List Nat) : List Nat :=
  toBytes8 s ++ (toBytes8 a ++ (toBytes8 b0 ++ (toBytes8 b1 ++ (toBytes8 mask ++
    (toBytes8 ctrl ++ (toBytes8 gl ++ (toBytes8 items ++
      (toBytes8 mem.length ++ mem))))))))

/-! ### Concrete instances used by the closed witness checks -/

/-- Slot stride 8, control alignment 16. -/
def tl0 : TableLayout := ⟨8, 16⟩

/-- Empty-singleton table metadata (`bucket_mask = 0`). -/
def hm0 : HashMap := ⟨⟨5, 6⟩, ⟨⟨0, 0, 0, 0⟩⟩⟩

/-- Snapshot of the empty singleton. -/
def f0 : FrozenHashMap := ⟨tl0, hm0, []⟩

/-- A 2-bucket table: `bucket_mask = 1`, control region at address 1000,
one item. -/
def hm1 : HashMap := ⟨⟨11, 12⟩, ⟨⟨1, 1000, 3, 1⟩⟩⟩

/-- Backing bytes of the 2-bucket table: 16 slot bytes (the slot of
bucket 0 is the eight 7s at offsets 8..15), two control bytes
(occupied, empty) at offsets 16..17, then 16 sentinel bytes. -/
def memory1 : List Nat :=
  [0, 0, 0, 0, 0, 0, 0, 0, 7, 7, 7, 7, 7, 7, 7, 7, 0, 255,
   255, 255, 255, 255, 255, 255, 255, 255, 255, 255, 255, 255, 255, 255, 255, 255]

/-- A valid captured snapshot of the 2-bucket table. -/
def f1 : FrozenHashMap := ⟨tl0, hm1, memory1⟩

/-- Source process memory holding `memory1` at address 984
(`= 1000 - ctrl_offset`). -/
def srcMem1 : Nat → Nat := fun a => memory1.getD (a - 984) 0

/-- A corrupt snapshot: the 2-bucket metadata with a 1-byte buffer. -/
def f2 : FrozenHashMap := ⟨tl0, hm1, [1]⟩

/-- Snapshot whose `bucket_mask + 1 = 3` is not a power of two. -/
def f3 : FrozenHashMap := ⟨⟨8, 16⟩, ⟨⟨0, 0⟩, ⟨⟨2, 0, 0, 0⟩⟩⟩, [42]⟩

/-- An encoded blob that decodes to `f3` (no semantic validation of
`bucket_mask` happens at decode). -/
def bytes3 : List Nat := blobOf 8 16 0 0 2 0 0 0 [42]

/-! ### Arithmetic helper lemmas -/

theorem testBit_highmask (k i : Nat) (hk : k ≤ 64) :
    ((2 ^ k - 1) ^^^ (2 ^ 64 - 1)).testBit i = (decide (k ≤ i) && decide (i < 64)) := by
  rw [Nat.testBit_xor, Nat.testBit_two_pow_sub_one, Nat.testBit_two_pow_sub_one]
  by_cases h1 : i < k <;> by_cases h2 : i < 64 <;> simp [h1, h2] <;> omega

theorem land_highmask (k x : Nat) (hk : k ≤ 64) (hx : x < 2 ^ 64) :
    x &&& ((2 ^ k - 1) ^^^ (2 ^ 64 - 1)) = x - x % 2 ^ k := by
  have hxd : x - x % 2 ^ k = (x >>> k) <<< k := by
    rw [Nat.shiftLeft_eq, Nat.shiftRight_eq_div_pow]
    have := Nat.mod_add_div x (2 ^ k)
    have h2 : 2 ^ k * (x / 2 ^ k) = x / 2 ^ k * 2 ^ k := Nat.mul_comm _ _
    omega
  rw [hxd]
  apply Nat.eq_of_testBit_eq
  intro i
  rw [Nat.testBit_and, testBit_highmask k i hk, Nat.testBit_shiftLeft,
    Nat.testBit_shiftRight]
  by_cases h1 : k ≤ i
  · have hki : k + (i - k) = i := by omega
    by_cases h2 : i < 64
    · simp [h1, h2, hki]
    · have hxi : x.testBit i = false :=
        Nat.testBit_lt_two_pow (lt_of_lt_of_le hx (Nat.pow_le_pow_right (by omega) (by omega)))
      simp [h1, h2, hki, hxi]
  · simp [h1]

theorem land_lowmask (x n : Nat) : x &&& (2 ^ n - 1) = x % 2 ^ n := by
  apply Nat.eq_of_testBit_eq
  intro i
  rw [Nat.testBit_and, Nat.testBit_two_pow_sub_one, Nat.testBit_mod_two_pow]
  exact Bool.and_comm _ _

theorem isPow2_two_pow (k : Nat) : isPow2 (2 ^ k) = true := by
  have h2 : 0 < 2 ^ k := Nat.two_pow_pos k
  simp only [isPow2, land_lowmask, Nat.mod_self, Bool.and_eq_true, beq_iff_eq, bne_iff_ne,
    ne_eq]
  exact ⟨by omega, trivial⟩

theorem roundUp_bounds (x a : Nat) (ha : 0 < a) :
    x ≤ roundUp x a ∧ roundUp x a ≤ x + (a - 1) := by
  have h1 : (x + a - 1) % a < a := Nat.mod_lt _ ha
  have h2 := Nat.mod_add_div (x + a - 1) a
  have h3 : a * ((x + a - 1) / a) = (x + a - 1) / a * a := Nat.mul_comm _ _
  unfold roundUp
  omega

theorem sub_mod_eq_roundUp (y a : Nat) :
    y + a - 1 - (y + a - 1) % a = roundUp y a := by
  have h2 := Nat.mod_add_div (y + a - 1) a
  have h3 : a * ((y + a - 1) / a) = (y + a - 1) / a * a := Nat.mul_comm _ _
  unfold roundUp
  omega

theorem land_eq_roundUp (s N a k : Nat) (hk : k < 64) (ha : a = 2 ^ k)
    (h : s * N + (a - 1) < U) :
    (s * N + (a - 1)) &&& ((a - 1) ^^^ (U - 1)) = roundUp (s * N) a := by
  have ha0 : 0 < a := ha ▸ Nat.two_pow_pos k
  have hx : s * N + (a - 1) = s * N + a - 1 := by omega
  have hl : (s * N + (a - 1)) &&& ((a - 1) ^^^ (U - 1)) =
      (s * N + (a - 1)) - (s * N + (a - 1)) % a := by
    have := land_highmask k (s * N + (a - 1)) (by omega) (by
      simpa [U] using h)
    simpa [U, ha] using this
  rw [hl, hx]
  exact sub_mod_eq_roundUp (s * N) a

/-! ### Layout calculator characterization -/

theorem calculate_layout_for_eq (s a N k : Nat) (hk : k < 64) (ha : a = 2 ^ k)
    (hN : isPow2 N = true) :
    TableLayout.calculate_layout_for ⟨s, a⟩ N =
      .value (if s * N + (a - 1) < U ∧ roundUp (s * N) a + (N + Group.WIDTH) < U
              then some (roundUp (s * N) a + (N + Group.WIDTH), roundUp (s * N) a)
              else none) := by
  simp only [TableLayout.calculate_layout_for, hN, Bool.true_eq_false, if_false]
  by_cases h1 : U ≤ s * N
  · rw [if_pos h1, if_neg (by omega)]
  · rw [if_neg h1]
    by_cases h2 : U ≤ s * N + (a - 1)
    · rw [if_pos h2, if_neg (by omega)]
    · rw [if_neg h2]
      have hr := land_eq_roundUp s N a k hk ha (by omega)
      rw [hr]
      by_cases h3 : U ≤ roundUp (s * N) a + (N + Group.WIDTH)
      · rw [if_pos h3, if_neg (by omega)]
      · rw [if_neg h3, if_pos (by omega)]

theorem calculate_layout_for_inv (tl : TableLayout) (N len off : Nat)
    (h : tl.calculate_layout_for N = .value (some (len, off))) :
    isPow2 N = true ∧ tl.size * N + (tl.ctrl_align - 1) < U ∧
    off = (tl.size * N + (tl.ctrl_align - 1)) &&& ((tl.ctrl_align - 1) ^^^ (U - 1)) ∧
    len = off + (N + Group.WIDTH) ∧ len < U := by
  simp only [TableLayout.calculate_layout_for] at h
  split_ifs at h with hp h1 h2 h3 <;>
    simp only [PanicOr.value.injEq, Option.some.injEq, Prod.mk.injEq, reduceCtorEq] at h
  exact ⟨by simpa using hp, by omega, h.2.symm, by omega, by omega⟩

theorem calculate_layout_for_inv2 (tl : TableLayout) (N len off k : Nat)
    (hk : k < 64) (ha : tl.ctrl_align = 2 ^ k)
    (h : tl.calculate_layout_for N = .value (some (len, off))) :
    off = roundUp (tl.size * N) tl.ctrl_align ∧ tl.size * N ≤ off ∧
    len = off + (N + Group.WIDTH) ∧ len < U ∧ isPow2 N = true := by
  obtain ⟨hN, hlt, hoff, hlen, hU⟩ := calculate_layout_for_inv tl N len off h
  have hr := land_eq_roundUp tl.size N tl.ctrl_align k hk ha hlt
  have hb := roundUp_bounds (tl.size * N) tl.ctrl_align (ha ▸ Nat.two_pow_pos k)
  exact ⟨hoff.trans hr, by omega, hlen, hU, hN⟩

theorem reallocation_inv (t : RawTableInner) (tl : TableLayout) (off len : Nat)
    (h : t.reallocation tl = .value (some (off, len))) :
    t.bucket_mask ≠ 0 ∧
    tl.calculate_layout_for (t.bucket_mask + 1) = .value (some (len, off)) := by
  unfold RawTableInner.reallocation at h
  split_ifs at h with h0
  · exact absurd h (by simp)
  · have hmask : t.bucket_mask ≠ 0 := by
      simpa [RawTableInner.is_empty_singleton] using h0
    refine ⟨hmask, ?_⟩
    cases hm : tl.calculate_layout_for t.buckets with
    | panics => rw [hm] at h; exact absurd h (by simp)
    | value o =>
      cases o with
      | none => rw [hm] at h; exact absurd h (by simp)
      | some p =>
        obtain ⟨len', off'⟩ := p
        rw [hm] at h
        simp only [PanicOr.value.injEq, Option.some.injEq, Prod.mk.injEq] at h
        obtain ⟨h1, h2⟩ := h
        rw [h1, h2] at hm
        simpa [RawTableInner.buckets] using hm

theorem reallocation_of_calc (t : RawTableInner) (tl : TableLayout) (len off : Nat)
    (h0 : t.bucket_mask ≠ 0)
    (hc : tl.calculate_layout_for (t.bucket_mask + 1) = .value (some (len, off))) :
    t.reallocation tl = .value (some (off, len)) := by
  unfold RawTableInner.reallocation
  simp [RawTableInner.is_empty_singleton, h0, RawTableInner.buckets, hc]

theorem reallocation_panics (t : RawTableInner) (tl : TableLayout)
    (h : isPow2 (t.bucket_mask + 1) = false) :
    t.reallocation tl = .panics := by
  have h0 : t.bucket_mask ≠ 0 := by
    intro h0
    rw [h0] at h
    simpa [isPow2] using h
  unfold RawTableInner.reallocation
  simp only [RawTableInner.is_empty_singleton, beq_iff_eq, h0, if_false]
  unfold RawTableInner.buckets TableLayout.calculate_layout_for
  simp [h]

theorem reallocation_empty (t : RawTableInner) (tl : TableLayout)
    (h : t.bucket_mask = 0) : t.reallocation tl = .value none := by
  unfold RawTableInner.reallocation
  simp [RawTableInner.is_empty_singleton, h]

theorem allocation_empty (t : RawTableInner) (tl : TableLayout)
    (h : t.bucket_mask = 0) : t.allocation tl = .value none := by
  unfold RawTableInner.allocation
  simp [RawTableInner.is_empty_singleton, h]

theorem allocation_of_calc (t : RawTableInner) (tl : TableLayout) (len off : Nat)
    (h0 : t.bucket_mask ≠ 0)
    (hc : tl.calculate_layout_for (t.bucket_mask + 1) = .value (some (len, off))) :
    t.allocation tl = .value (some (t.ctrl - off, len)) := by
  unfold RawTableInner.allocation
  simp [RawTableInner.is_empty_singleton, h0, RawTableInner.buckets, hc]

/-! ### Blob codec lemmas -/

theorem toBytes8_length (n : Nat) : (toBytes8 n).length = 8 := rfl

theorem fromLE_toBytes8 (n : Nat) (h : n < U) : fromLE (toBytes8 n) = n := by
  simp only [toBytes8, fromLE, List.foldr, U] at *
  omega

theorem store_eq_blobOf (f : FrozenHashMap) :
    f.store = blobOf f.table_layout.size f.table_layout.ctrl_align
      f.hashmap.hash_builder.k0 f.hashmap.hash_builder.k1
      f.hashmap.table.table.bucket_mask f.hashmap.table.table.ctrl
      f.hashmap.table.table.growth_left f.hashmap.table.table.items f.memory := by
  simp [FrozenHashMap.store, TableLayout.asBytes, HashMap.asBytes, blobOf,
    List.append_assoc]

theorem blobOf_length (s a b0 b1 mask ctrl gl items : Nat) (mem : List Nat) :
    (blobOf s a b0 b1 mask ctrl gl items mem).length = 72 + mem.length := by
  simp [blobOf, toBytes8]
  omega

theorem readU64_zero (m : Nat) (R : List Nat) :
    readU64 (toBytes8 m ++ R) 0 = fromLE (toBytes8 m) := by
  unfold readU64
  rw [List.drop_zero]
  have ht : (toBytes8 m ++ R).take 8 = toBytes8 m := List.take_left (toBytes8 m) R
  rw [ht]

theorem drop8_shift (m : Nat) (R : List Nat) (i j : Nat) (h : j = 8 + i) :
    (toBytes8 m ++ R).drop j = R.drop i := by
  subst h
  have hd := @List.drop_append Nat (toBytes8 m) R i
  simpa [toBytes8_length] using hd

theorem readU64_shift (m : Nat) (R : List Nat) (i j : Nat) (h : j = 8 + i) :
    readU64 (toBytes8 m ++ R) j = readU64 R i := by
  unfold readU64
  rw [drop8_shift m R i j h]

theorem blobOf_read0 (s a b0 b1 mask ctrl gl items : Nat) (mem : List Nat) :
    readU64 (blobOf s a b0 b1 mask ctrl gl items mem) 0 = fromLE (toBytes8 s) := by
  unfold blobOf
  rw [readU64_zero]

theorem blobOf_read8 (s a b0 b1 mask ctrl gl items : Nat) (mem : List Nat) :
    readU64 (blobOf s a b0 b1 mask ctrl gl items mem) 8 = fromLE (toBytes8 a) := by
  unfold blobOf
  rw [readU64_shift _ _ 0 8 rfl, readU64_zero]

theorem blobOf_read16 (s a b0 b1 mask ctrl gl items : Nat) (mem : List Nat) :
    readU64 (blobOf s a b0 b1 mask ctrl gl items mem) 16 = fromLE (toBytes8 b0) := by
  unfold blobOf
  rw [readU64_shift _ _ 8 16 rfl, readU64_shift _ _ 0 8 rfl, readU64_zero]

theorem blobOf_read24 (s a b0 b1 mask ctrl gl items : Nat) (mem : List Nat) :
    readU64 (blobOf s a b0 b1 mask ctrl gl items mem) 24 = fromLE (toBytes8 b1) := by
  unfold blobOf
  rw [readU64_shift _ _ 16 24 rfl, readU64_shift _ _ 8 16 rfl,
    readU64_shift _ _ 0 8 rfl, readU64_zero]

theorem blobOf_read32 (s a b0 b1 mask ctrl gl items : Nat) (mem : List Nat) :
    readU64 (blobOf s a b0 b1 mask ctrl gl items mem) 32 = fromLE (toBytes8 mask) := by
  unfold blobOf
  rw [readU64_shift _ _ 24 32 rfl, readU64_shift _ _ 16 24 rfl,
    readU64_shift _ _ 8 16 rfl, readU64_shift _ _ 0 8 rfl, readU64_zero]

theorem blobOf_read40 (s a b0 b1 mask ctrl gl items : Nat) (mem : List Nat) :
    readU64 (blobOf s a b0 b1 mask ctrl gl items mem) 40 = fromLE (toBytes8 ctrl) := by
  unfold blobOf
  rw [readU64_shift _ _ 32 40 rfl, readU64_shift _ _ 24 32 rfl,
    readU64_shift _ _ 16 24 rfl, readU64_shift _ _ 8 16 rfl,
    readU64_shift _ _ 0 8 rfl, readU64_zero]

theorem blobOf_read48 (s a b0 b1 mask ctrl gl items : Nat) (mem : List Nat) :
    readU64 (blobOf s a b0 b1 mask ctrl gl items mem) 48 = fromLE (toBytes8 gl) := by
  unfold blobOf
  rw [readU64_shift _ _ 40 48 rfl, readU64_shift _ _ 32 40 rfl,
    readU64_shift _ _ 24 32 rfl, readU64_shift _ _ 16 24 rfl,
    readU64_shift _ _ 8 16 rfl, readU64_shift _ _ 0 8 rfl, readU64_zero]

theorem blobOf_read56 (s a b0 b1 mask ctrl gl items : Nat) (mem : List Nat) :
    readU64 (blobOf s a b0 b1 mask ctrl gl items mem) 56 = fromLE (toBytes8 items) := by
  unfold blobOf
  rw [readU64_shift _ _ 48 56 rfl, readU64_shift _ _ 40 48 rfl,
    readU64_shift _ _ 32 40 rfl, readU64_shift _ _ 24 32 rfl,
    readU64_shift _ _ 16 24 rfl, readU64_shift _ _ 8 16 rfl,
    readU64_shift _ _ 0 8 rfl, readU64_zero]

theorem blobOf_read64 (s a b0 b1 mask ctrl gl items : Nat) (mem : List Nat) :
    readU64 (blobOf s a b0 b1 mask ctrl gl items mem) 64 =
      fromLE (toBytes8 mem.length) := by
  unfold blobOf
  rw [readU64_shift _ _ 56 64 rfl, readU64_shift _ _ 48 56 rfl,
    readU64_shift _ _ 40 48 rfl, readU64_shift _ _ 32 40 rfl,
    readU64_shift _ _ 24 32 rfl, readU64_shift _ _ 16 24 rfl,
    readU64_shift _ _ 8 16 rfl, readU64_shift _ _ 0 8 rfl, readU64_zero]

theorem blobOf_drop72 (s a b0 b1 mask ctrl gl items : Nat) (mem : List Nat) :
    (blobOf s a b0 b1 mask ctrl gl items mem).drop 72 = mem := by
  unfold blobOf
  rw [drop8_shift _ _ 64 72 rfl, drop8_shift _ _ 56 64 rfl,
    drop8_shift _ _ 48 56 rfl, drop8_shift _ _ 40 48 rfl,
    drop8_shift _ _ 32 40 rfl, drop8_shift _ _ 24 32 rfl,
    drop8_shift _ _ 16 24 rfl, drop8_shift _ _ 8 16 rfl,
    drop8_shift _ _ 0 8 rfl, List.drop_zero]

theorem readU64_take (l : List Nat) (n i : Nat) (h : i + 8 ≤ n) :
    readU64 (l.take n) i = readU64 l i := by
  unfold readU64
  rw [List.drop_take, List.take_take, Nat.min_eq_left (by omega : 8 ≤ n - i)]

theorem load_store (f : FrozenHashMap)
    (h1 : f.table_layout.size < U) (h2 : f.table_layout.ctrl_align < U)
    (h3 : f.hashmap.hash_builder.k0 < U) (h4 : f.hashmap.hash_builder.k1 < U)
    (h5 : f.hashmap.table.table.bucket_mask < U) (h6 : f.hashmap.table.table.ctrl < U)
    (h7 : f.hashmap.table.table.growth_left < U)
    (h8 : f.hashmap.table.table.items < U) (h9 : f.memory.length < U) :
    FrozenHashMap.load f.store = some f := by
  obtain ⟨⟨s, a⟩, ⟨⟨b0, b1⟩, ⟨⟨mask, ctrl, gl, items⟩⟩⟩, mem⟩ := f
  replace h1 : s < U := h1
  replace h2 : a < U := h2
  replace h3 : b0 < U := h3
  replace h4 : b1 < U := h4
  replace h5 : mask < U := h5
  replace h6 : ctrl < U := h6
  replace h7 : gl < U := h7
  replace h8 : items < U := h8
  replace h9 : mem.length < U := h9
  have hB : FrozenHashMap.store ⟨⟨s, a⟩, ⟨⟨b0, b1⟩, ⟨⟨mask, ctrl, gl, items⟩⟩⟩, mem⟩ =
      blobOf s a b0 b1 mask ctrl gl items mem := store_eq_blobOf _
  rw [hB]
  simp only [FrozenHashMap.load]
  split_ifs with c1 c2 c3 c4
  · exact absurd c1 (by rw [blobOf_length]; omega)
  · exact absurd c2 (by rw [blobOf_length]; omega)
  · exact absurd c3 (by rw [blobOf_length]; omega)
  · exact absurd c4 (by
      rw [blobOf_read64, fromLE_toBytes8 _ h9, blobOf_length]
      omega)
  · rw [blobOf_read0, blobOf_read8, blobOf_read16, blobOf_read24, blobOf_read32,
      blobOf_read40, blobOf_read48, blobOf_read56, blobOf_drop72,
      fromLE_toBytes8 _ h1, fromLE_toBytes8 _ h2, fromLE_toBytes8 _ h3,
      fromLE_toBytes8 _ h4, fromLE_toBytes8 _ h5, fromLE_toBytes8 _ h6,
      fromLE_toBytes8 _ h7, fromLE_toBytes8 _ h8]

theorem load_truncated (f : FrozenHashMap) (hL : f.memory.length < U) (k : Nat)
    (hk1 : 1 ≤ k) (hk2 : k ≤ f.store.length) :
    FrozenHashMap.load (f.store.take (f.store.length - k)) = none := by
  obtain ⟨⟨s, a⟩, ⟨⟨b0, b1⟩, ⟨⟨mask, ctrl, gl, items⟩⟩⟩, mem⟩ := f
  replace hL : mem.length < U := hL
  have hB : FrozenHashMap.store ⟨⟨s, a⟩, ⟨⟨b0, b1⟩, ⟨⟨mask, ctrl, gl, items⟩⟩⟩, mem⟩ =
      blobOf s a b0 b1 mask ctrl gl items mem := store_eq_blobOf _
  rw [hB] at hk2 ⊢
  rw [blobOf_length] at hk2 ⊢
  have htl : ((blobOf s a b0 b1 mask ctrl gl items mem).take
      (72 + mem.length - k)).length = 72 + mem.length - k := by
    rw [List.length_take, blobOf_length]
    omega
  simp only [FrozenHashMap.load]
  split_ifs with c1 c2 c3 c4
  · rfl
  · rfl
  · rfl
  · rfl
  · exfalso
    rw [htl] at c3
    have hk3 : k ≤ mem.length := by omega
    have hread : readU64 ((blobOf s a b0 b1 mask ctrl gl items mem).take
        (72 + mem.length - k)) 64 = mem.length := by
      rw [readU64_take _ _ _ (by omega : 64 + 8 ≤ 72 + mem.length - k),
        blobOf_read64, fromLE_toBytes8 _ hL]
    rw [hread, htl] at c4
    omega

/-! ### Raw iterator characterization -/

theorem filter_range'_of_find?_none (p : Nat → Bool) (n c : Nat)
    (h : (List.range' c n).find? p = none) : (List.range' c n).filter p = [] := by
  rw [List.filter_eq_nil_iff]
  intro a ha
  simpa using List.find?_eq_none.mp h a ha

theorem find?_range'_some (p : Nat → Bool) :
    ∀ (n c j : Nat), (List.range' c n).find? p = some j →
      c ≤ j ∧ j < c + n ∧ p j = true ∧
      (List.range' c n).filter p =
        j :: (List.range' (j + 1) (c + n - (j + 1))).filter p := by
  intro n
  induction n with
  | zero => intro c j h; simp at h
  | succ m ih =>
    intro c j h
    rw [List.range'_succ] at h ⊢
    by_cases hp : p c
    · rw [List.find?_cons_of_pos _ hp] at h
      have hj : j = c := by simpa using h.symm
      subst hj
      have hm : j + (m + 1) - (j + 1) = m := by omega
      rw [List.filter_cons_of_pos hp, hm]
      exact ⟨le_refl j, by omega, hp, rfl⟩
    · rw [List.find?_cons_of_neg _ hp] at h
      obtain ⟨h1, h2, h3, h4⟩ := ih (c + 1) j h
      have hm : c + (m + 1) - (j + 1) = c + 1 + m - (j + 1) := by omega
      rw [List.filter_cons_of_neg hp, hm]
      exact ⟨by omega, by omega, h3, h4⟩

theorem scanAux_spec (fuel : Nat) :
    ∀ (it : RawBucketIter), fuel = it.stop - it.cur → it.base ≤ it.cur →
    it.scanAux fuel =
      match (List.range' (it.cur - it.base) fuel).find?
          (fun j => it.read (it.base + j) &&& 0x80 == 0) with
      | none => none
      | some j => some (it.base - (j + 1) * it.bucket_size,
          { it with cur := it.base + j + 1, items := it.items - 1 }) := by
  induction fuel with
  | zero => intro it _ _; simp [RawBucketIter.scanAux]
  | succ m ih =>
    intro it hfuel hbc
    have hcur : it.cur < it.stop := by omega
    rw [RawBucketIter.scanAux, if_pos hcur, List.range'_succ]
    have hx : it.base + (it.cur - it.base) = it.cur := by omega
    have hread : (it.read (it.base + (it.cur - it.base)) &&& 0x80 == 0) =
        (it.read it.cur &&& 0x80 == 0) := by rw [hx]
    by_cases hp : it.read it.cur &&& 0x80 == 0
    · rw [if_pos hp, List.find?_cons_of_pos _ (by rw [hread]; exact hp)]
      have e1 : it.cur + 1 - it.base = it.cur - it.base + 1 := by omega
      have e2 : it.base + (it.cur - it.base) + 1 = it.cur + 1 := by omega
      simp only [e1, e2]
    · rw [if_neg hp, List.find?_cons_of_neg _ (by rw [hread]; exact hp)]
      have hih := ih { it with cur := it.cur + 1 } (by simp; omega) (by simp; omega)
      simp only at hih
      rw [hih]
      have e3 : it.cur + 1 - it.base = it.cur - it.base + 1 := by omega
      rw [e3]
      rfl

theorem emitAux_spec (fuel : Nat) :
    ∀ (it : RawBucketIter), it.items ≤ fuel → it.base ≤ it.cur → it.cur ≤ it.stop →
    it.emitAux fuel =
      (((List.range' (it.cur - it.base) (it.stop - it.cur)).filter
          (fun j => it.read (it.base + j) &&& 0x80 == 0)).take it.items).map
        (fun j => it.base - (j + 1) * it.bucket_size) := by
  induction fuel with
  | zero =>
    intro it h1 _ _
    have hz : it.items = 0 := by omega
    simp [RawBucketIter.emitAux, hz]
  | succ m ih =>
    intro it h1 hbc hcs
    by_cases hz : it.items = 0
    · rw [RawBucketIter.emitAux]
      unfold RawBucketIter.next
      rw [if_pos hz]
      simp [hz]
    · rw [RawBucketIter.emitAux]
      unfold RawBucketIter.next
      rw [if_neg hz]
      unfold RawBucketIter.scan
      rw [scanAux_spec (it.stop - it.cur) it rfl hbc]
      cases hf : (List.range' (it.cur - it.base) (it.stop - it.cur)).find?
          (fun j => it.read (it.base + j) &&& 0x80 == 0) with
      | none =>
        rw [filter_range'_of_find?_none _ _ _ hf]
        simp
      | some j =>
        obtain ⟨hj1, hj2, hj3, hfil⟩ := find?_range'_some _ _ _ _ hf
        rw [hfil]
        dsimp only
        obtain ⟨n, hn⟩ : ∃ n, it.items = n + 1 := ⟨it.items - 1, by omega⟩
        rw [hn, List.take_succ_cons, List.map_cons]
        congr 1
        have hih := ih { it with cur := it.base + j + 1, items := it.items - 1 }
          (by dsimp only; omega) (by dsimp only; omega) (by dsimp only; omega)
        dsimp only [RawBucketIter.read] at hih ⊢
        have e4 : it.base + j + 1 - it.base = j + 1 := by omega
        have e5 : it.stop - (it.base + j + 1) =
            it.cur - it.base + (it.stop - it.cur) - (j + 1) := by omega
        rw [e4, e5, hn] at hih
        simp only [Nat.add_sub_cancel] at hih ⊢
        rw [hih]

theorem rawYield_eq (addr : Nat) (f : FrozenHashMap) (off len : Nat)
    (hre : f.hashmap.table.table.reallocation f.table_layout = .value (some (off, len)))
    (hmem : f.memory ≠ [])
    (hlen : len = f.memory.length)
    (hoff : off ≤ f.memory.length) :
    f.rawYield addr = .value (some
      ((((List.range (f.memory.length - off)).filter
          (ctrlOccupied f.memory off)).take f.hashmap.table.table.items).map
        (fun j => addr + off - (j + 1) * f.table_layout.size))) := by
  unfold FrozenHashMap.rawYield FrozenHashMap.raw_iter
  rw [hre]
  dsimp only
  rw [if_neg hmem, if_neg (by simp [hlen])]
  dsimp only
  unfold RawBucketIter.emit
  have hsp := emitAux_spec
      (({ base := addr + off, cur := addr + off, stop := addr + f.memory.length,
          bucket_size := f.table_layout.size, items := f.hashmap.table.table.items,
          memBase := addr, memory := f.memory } : RawBucketIter)).items
      { base := addr + off, cur := addr + off, stop := addr + f.memory.length,
        bucket_size := f.table_layout.size, items := f.hashmap.table.table.items,
        memBase := addr, memory := f.memory }
      (le_refl _) (by dsimp only; omega) (by dsimp only; omega)
  dsimp only [RawBucketIter.read] at hsp
  simp only [Nat.sub_self] at hsp
  have e2 : addr + f.memory.length - (addr + off) = f.memory.length - off := by omega
  rw [e2, ← List.range_eq_range'] at hsp
  have hpf : (fun j => f.memory.getD (addr + off + j - addr) 0 &&& 0x80 == 0) =
      ctrlOccupied f.memory off := by
    funext j
    have e : addr + off + j - addr = off + j := by omega
    simp [ctrlOccupied, e]
  rw [hpf] at hsp
  rw [hsp]

theorem take_filter_range_restrict (p : Nat → Bool) (n N m : Nat)
    (hn : n ≤ N) (hcount : m ≤ ((List.range n).filter p).length) :
    ((List.range N).filter p).take m = ((List.range n).filter p).take m := by
  have hsplit : List.range N = List.range n ++ (List.range (N - n)).map (n + ·) := by
    have e : n + (N - n) = N := by omega
    conv_lhs => rw [← e]
    exact List.range_add n (N - n)
  rw [hsplit, List.filter_append, List.take_append_of_le_length hcount]

theorem getD_range_map (g : Nat → Nat) (n i : Nat) (hi : i < n) :
    ((List.range n).map g).getD i 0 = g i := by
  rw [List.getD_eq_getElem?_getD, List.getElem?_map, List.getElem?_range hi]
  rfl

theorem yield_closed (addr : Nat) (f : FrozenHashMap) (off len k : Nat)
    (hk : k < 64) (ha : f.table_layout.ctrl_align = 2 ^ k)
    (hmask : f.hashmap.table.table.bucket_mask ≠ 0)
    (hc : f.table_layout.calculate_layout_for (f.hashmap.table.table.bucket_mask + 1) =
      .value (some (len, off)))
    (hlen : len = f.memory.length)
    (hocc : f.hashmap.table.table.items ≤
      ((List.range (f.hashmap.table.table.bucket_mask + 1)).filter
        (ctrlOccupied f.memory off)).length) :
    f.rawYield addr = .value (some
      ((((List.range (f.hashmap.table.table.bucket_mask + 1)).filter
          (ctrlOccupied f.memory off)).take f.hashmap.table.table.items).map
        (fun j => addr + off - (j + 1) * f.table_layout.size))) := by
  obtain ⟨hoff_eq, hsn, hlen_eq, hU, hpow⟩ :=
    calculate_layout_for_inv2 f.table_layout (f.hashmap.table.table.bucket_mask + 1)
      len off k hk ha hc
  have hre := reallocation_of_calc f.hashmap.table.table f.table_layout len off hmask hc
  have hGW : Group.WIDTH = 16 := rfl
  have hmem : f.memory ≠ [] := by
    intro hnil
    rw [hnil] at hlen
    simp at hlen
    omega
  rw [rawYield_eq addr f off len hre hmem hlen (by omega)]
  have hrange : f.memory.length - off = f.hashmap.table.table.bucket_mask + 1 +
      Group.WIDTH := by omega
  rw [hrange,
    take_filter_range_restrict (ctrlOccupied f.memory off)
      (f.hashmap.table.table.bucket_mask + 1)
      (f.hashmap.table.table.bucket_mask + 1 + Group.WIDTH)
      f.hashmap.table.table.items (by omega) hocc]

/-! ### Restore lemmas -/

theorem reconstruct_empty (addr : Nat) (f : FrozenHashMap) (h : f.memory = []) :
    f.reconstruct addr = .value none := by
  unfold FrozenHashMap.reconstruct
  rw [if_pos h]

theorem reconstruct_eq (addr : Nat) (f : FrozenHashMap) (off len : Nat)
    (hmem : f.memory ≠ [])
    (hre : f.hashmap.table.table.reallocation f.table_layout = .value (some (off, len)))
    (hlen : len = f.memory.length) (hnz : addr + off ≠ 0) :
    f.reconstruct addr = .value (some
      { f with hashmap.table.table.ctrl := addr + off }) := by
  unfold FrozenHashMap.reconstruct
  rw [if_neg hmem, hre]
  dsimp only
  rw [if_neg (by simp [hlen]), if_neg hnz]

theorem reconstruct_null (addr : Nat) (f : FrozenHashMap) (off len : Nat)
    (hmem : f.memory ≠ [])
    (hre : f.hashmap.table.table.reallocation f.table_layout = .value (some (off, len)))
    (hlen : len = f.memory.length) (hz : addr + off = 0) :
    f.reconstruct addr = .value none := by
  unfold FrozenHashMap.reconstruct
  rw [if_neg hmem, hre]
  dsimp only
  rw [if_neg (by simp [hlen]), if_pos hz]

theorem reconstruct_mismatch (addr : Nat) (f : FrozenHashMap) (off len : Nat)
    (hmem : f.memory ≠ [])
    (hre : f.hashmap.table.table.reallocation f.table_layout = .value (some (off, len)))
    (hne : len ≠ f.memory.length) :
    f.reconstruct addr = .panics := by
  unfold FrozenHashMap.reconstruct
  rw [if_neg hmem, hre]
  dsimp only
  rw [if_pos hne]

/-! ### Claim theorems -/

/-- C2: for a power-of-two control alignment `a` and power-of-two bucket
count `N`, `calculate_layout_for` returns
`control_offset = round_up(s * N, a)` and total size
`control_offset + N + Group::WIDTH`; when the arithmetic overflows the
`usize` range it returns `none` (LayoutOverflow) rather than panicking. -/
theorem calculate_layout_for_correct (s a N k m : Nat) (hk : k < 64)
    (ha : a = 2 ^ k) (hm : N = 2 ^ m) :
    TableLayout.calculate_layout_for ⟨s, a⟩ N =
      .value (if s * N + (a - 1) < U ∧ roundUp (s * N) a + (N + Group.WIDTH) < U
              then some (roundUp (s * N) a + (N + Group.WIDTH), roundUp (s * N) a)
              else none) :=
  calculate_layout_for_eq s a N k hk ha (hm ▸ isPow2_two_pow m)

/-- Witness for `calculate_layout_for_correct`: stride 8, alignment 16,
8 buckets gives control offset 64 and total span 88 (spec scenario A). -/
theorem calculate_layout_for_correct_witness :
    TableLayout.calculate_layout_for ⟨8, 16⟩ 8 = .value (some (88, 64)) :=
  (calculate_layout_for_correct 8 16 8 4 3 (by decide) rfl rfl).trans (by decide)

/-- C3 counterexample: the blob written by `store` is not the seven-field
layout asserted by the spec — at the empty-singleton snapshot `f0` the
two differ (the spec layout omits the two 8-byte hash-builder keys, so it
is 56 bytes while `store` writes 72). -/
theorem store_ne_spec_blob_layout : FrozenHashMap.store f0 ≠ specBlobLayout f0 := by
  decide

/-- C3 (amended): `store` writes, in order, `slot_stride`(8B),
`control_alignment`(8B), the hash builder keys `k0`(8B) and `k1`(8B),
`bucket_mask`(8B), the control-pointer placeholder(8B),
`growth_left`(8B), `item_count`(8B), the 8-byte length prefix, then
`raw_bytes`; the header is 72 bytes, not 56. -/
theorem store_blob_layout (f : FrozenHashMap) :
    f.store =
      toBytes8 f.table_layout.size ++ toBytes8 f.table_layout.ctrl_align ++
      toBytes8 f.hashmap.hash_builder.k0 ++ toBytes8 f.hashmap.hash_builder.k1 ++
      toBytes8 f.hashmap.table.table.bucket_mask ++
      toBytes8 f.hashmap.table.table.ctrl ++
      toBytes8 f.hashmap.table.table.growth_left ++
      toBytes8 f.hashmap.table.table.items ++
      toBytes8 f.memory.length ++ f.memory ∧
    f.store.length = 72 + f.memory.length := by
  constructor
  · simp [FrozenHashMap.store, TableLayout.asBytes, HashMap.asBytes, List.append_assoc]
  · rw [store_eq_blobOf, blobOf_length]

/-- C4: decoding any proper truncation of an encoded blob fails: `load`
checks remaining length before each record and finally requires the
length prefix to account for the remaining bytes exactly, so removing
the last `k ≥ 1` bytes always yields `none` (and `Option` forces that no
partially-populated snapshot is returned). -/
theorem load_rejects_truncation (f : FrozenHashMap) (hL : f.memory.length < U)
    (k : Nat) (hk1 : 1 ≤ k) (hk2 : k ≤ f.store.length) :
    FrozenHashMap.load (f.store.take (f.store.length - k)) = none :=
  load_truncated f hL k hk1 hk2

/-- Witness for `load_rejects_truncation`: dropping the final byte of the
blob of the empty-singleton snapshot makes decoding fail. -/
theorem load_rejects_truncation_witness :
    FrozenHashMap.load
      ((FrozenHashMap.store f0).take ((FrozenHashMap.store f0).length - 1)) = none :=
  load_rejects_truncation f0 (by decide) 1 (by decide) (by decide)

/-- C5 counterexample: at the corrupt snapshot `f2` (non-empty 1-byte
buffer, recomputed span 34) the size mismatch makes `reconstruct` fail
its `assert_eq!` — the outcome is a panic, not the explicit failure
value the claim asserts. -/
theorem reconstruct_size_mismatch_is_panic :
    f2.memory ≠ [] ∧
    RawTableInner.reallocation f2.hashmap.table.table f2.table_layout =
      .value (some (16, 34)) ∧
    (34 : Nat) ≠ f2.memory.length ∧
    FrozenHashMap.reconstruct 100 f2 = .panics :=
  ⟨by decide, by decide, by decide, by decide⟩

/-- C5 (amended): when the recomputed total size differs from
`raw_bytes.len()`, `reconstruct` fails the `assert_eq!` — a panic
observable as the SizeMismatch condition, but not an explicit result
value (unlike `raw_iter`, which returns `None` on the same mismatch). -/
theorem reconstruct_size_mismatch_panics (addr : Nat) (f : FrozenHashMap)
    (off len : Nat) (hmem : f.memory ≠ [])
    (hre : f.hashmap.table.table.reallocation f.table_layout = .value (some (off, len)))
    (hne : len ≠ f.memory.length) :
    f.reconstruct addr = .panics :=
  reconstruct_mismatch addr f off len hmem hre hne

/-- Witness for `reconstruct_size_mismatch_panics` at the corrupt
snapshot `f2`. -/
theorem reconstruct_size_mismatch_panics_witness :
    FrozenHashMap.reconstruct 100 f2 = .panics :=
  reconstruct_size_mismatch_panics 100 f2 16 34 (by decide) (by decide) (by decide)

/-- C6: for a decoded snapshot with non-empty `raw_bytes` and matching
recomputed size, `reconstruct` patches the control pointer to
`address_of(raw_bytes) + control_offset`; when that address is the zero
sentinel it returns `none` (NullRelocation) and no patched snapshot is
produced. -/
theorem reconstruct_relocates_control (addr : Nat) (f : FrozenHashMap)
    (off len : Nat) (hmem : f.memory ≠ [])
    (hre : f.hashmap.table.table.reallocation f.table_layout = .value (some (off, len)))
    (hlen : len = f.memory.length) :
    (addr + off ≠ 0 → f.reconstruct addr =
      .value (some { f with hashmap.table.table.ctrl := addr + off })) ∧
    (addr + off = 0 → f.reconstruct addr = .value none) :=
  ⟨fun hnz => reconstruct_eq addr f off len hmem hre hlen hnz,
   fun hz => reconstruct_null addr f off len hmem hre hlen hz⟩

/-- Witness for `reconstruct_relocates_control`: restoring `f1` at buffer
address 100 patches the control pointer to `100 + 16`. -/
theorem reconstruct_relocates_control_witness :
    FrozenHashMap.reconstruct 100 f1 =
      .value (some { f1 with hashmap.table.table.ctrl := 100 + 16 }) :=
  (reconstruct_relocates_control 100 f1 16 34 (by decide) (by decide)
    (by decide)).1 (by decide)

/-- C8: a table with `bucket_mask = 0` (the empty singleton) captures to
a snapshot with an empty buffer without error, restore reports the
non-error EmptySingleton outcome (`none`, nothing to relocate, the
snapshot stays unusable for iteration), and raw iteration produces no
iterator and hence zero addresses. -/
theorem empty_singleton_behaviour (srcMem : Nat → Nat) (hm : HashMap)
    (tl : TableLayout) (addr : Nat) (h0 : hm.table.table.bucket_mask = 0) :
    FrozenHashMap.construct_with srcMem hm tl =
      .value { table_layout := tl, hashmap := hm, memory := [] } ∧
    FrozenHashMap.reconstruct addr
      { table_layout := tl, hashmap := hm, memory := [] } = .value none ∧
    FrozenHashMap.rawYield addr
      { table_layout := tl, hashmap := hm, memory := [] } = .value none := by
  have hall := allocation_empty hm.table.table tl h0
  have hrel := reallocation_empty hm.table.table tl h0
  refine ⟨?_, ?_, ?_⟩
  · unfold FrozenHashMap.construct_with
    rw [hall]
  · exact reconstruct_empty addr _ rfl
  · unfold FrozenHashMap.rawYield FrozenHashMap.raw_iter
    rw [hrel]

/-- Witness for `empty_singleton_behaviour` at the concrete empty
singleton `hm0`. -/
theorem empty_singleton_behaviour_witness :
    FrozenHashMap.construct_with (fun _ => 0) hm0 tl0 =
      .value { table_layout := tl0, hashmap := hm0, memory := [] } ∧
    FrozenHashMap.reconstruct 7
      { table_layout := tl0, hashmap := hm0, memory := [] } = .value none ∧
    FrozenHashMap.rawYield 7
      { table_layout := tl0, hashmap := hm0, memory := [] } = .value none :=
  empty_singleton_behaviour (fun _ => 0) hm0 tl0 7 (by decide)

/-- C10: decode performs no semantic validation of `bucket_mask`, and
`calculate_layout_for` asserts its bucket count is a power of two; on a
decoded snapshot with non-empty `raw_bytes` whose `bucket_mask + 1` is
not a power of two, both `reconstruct` and `raw_iter` fail that
assertion (panic) instead of returning a failure value. -/
theorem non_pow2_bucket_mask_panics (bytes : List Nat) (f : FrozenHashMap)
    (addr : Nat) (hload : FrozenHashMap.load bytes = some f)
    (hmem : f.memory ≠ [])
    (hpow : isPow2 (f.hashmap.table.table.bucket_mask + 1) = false) :
    f.reconstruct addr = .panics ∧ f.raw_iter addr = .panics := by
  have hre := reallocation_panics f.hashmap.table.table f.table_layout hpow
  constructor
  · unfold FrozenHashMap.reconstruct
    rw [if_neg hmem, hre]
  · unfold FrozenHashMap.raw_iter
    rw [hre]

/-- Witness for `non_pow2_bucket_mask_panics`: the blob `bytes3` decodes
(no `bucket_mask` validation) to `f3` with `bucket_mask + 1 = 3`, and
both operations panic on it. -/
theorem non_pow2_bucket_mask_panics_witness :
    FrozenHashMap.reconstruct 100 f3 = .panics ∧
    FrozenHashMap.raw_iter 100 f3 = .panics :=
  non_pow2_bucket_mask_panics bytes3 f3 100 (by decide) (by decide) (by decide)

/-- C7: on a valid table view (power-of-two alignment, layout recomputes
to the buffer length, at least `item_count` occupied bytes among the
first `bucket_mask + 1` control bytes), the raw iterator yields exactly
the addresses `control_base - (i + 1) * slot_stride` for the occupied
control-byte indices `i` in ascending order (most significant bit 0 =
occupied, scanning from the control base `addr + control_offset`),
stopping after `item_count` yields; the sequence has length
`item_count` and every address lies inside the owning buffer. -/
theorem raw_iter_scan_spec (addr : Nat) (f : FrozenHashMap) (off len k : Nat)
    (hk : k < 64) (ha : f.table_layout.ctrl_align = 2 ^ k)
    (hmask : f.hashmap.table.table.bucket_mask ≠ 0)
    (hc : f.table_layout.calculate_layout_for
      (f.hashmap.table.table.bucket_mask + 1) = .value (some (len, off)))
    (hlen : len = f.memory.length)
    (hocc : f.hashmap.table.table.items ≤
      ((List.range (f.hashmap.table.table.bucket_mask + 1)).filter
        (ctrlOccupied f.memory off)).length) :
    f.rawYield addr = .value (some
      ((((List.range (f.hashmap.table.table.bucket_mask + 1)).filter
          (ctrlOccupied f.memory off)).take f.hashmap.table.table.items).map
        (fun j => addr + off - (j + 1) * f.table_layout.size))) ∧
    ((((List.range (f.hashmap.table.table.bucket_mask + 1)).filter
        (ctrlOccupied f.memory off)).take f.hashmap.table.table.items).map
      (fun j => addr + off - (j + 1) * f.table_layout.size)).length =
      f.hashmap.table.table.items ∧
    ∀ x ∈ (((List.range (f.hashmap.table.table.bucket_mask + 1)).filter
        (ctrlOccupied f.memory off)).take f.hashmap.table.table.items).map
      (fun j => addr + off - (j + 1) * f.table_layout.size),
      addr ≤ x ∧ x < addr + f.memory.length := by
  obtain ⟨hoff_eq, hsn, hlen_eq, hU, hpow⟩ :=
    calculate_layout_for_inv2 f.table_layout (f.hashmap.table.table.bucket_mask + 1)
      len off k hk ha hc
  refine ⟨yield_closed addr f off len k hk ha hmask hc hlen hocc, ?_, ?_⟩
  · rw [List.length_map, List.length_take, Nat.min_eq_left hocc]
  · intro x hx
    obtain ⟨j, hj, hxe⟩ := List.mem_map.mp hx
    have hj1 : j ∈ (List.range (f.hashmap.table.table.bucket_mask + 1)).filter
        (ctrlOccupied f.memory off) := List.mem_of_mem_take hj
    have hj2 : j < f.hashmap.table.table.bucket_mask + 1 :=
      List.mem_range.mp (List.mem_filter.mp hj1).1
    have hmul : (j + 1) * f.table_layout.size ≤ off := by
      calc (j + 1) * f.table_layout.size
          ≤ (f.hashmap.table.table.bucket_mask + 1) * f.table_layout.size :=
            Nat.mul_le_mul_right _ (by omega)
        _ = f.table_layout.size * (f.hashmap.table.table.bucket_mask + 1) :=
            Nat.mul_comm _ _
        _ ≤ off := hsn
    subst hxe
    omega

/-- Witness for `raw_iter_scan_spec`: iterating the concrete snapshot
`f1` at buffer address 100 yields exactly the one in-bounds address for
its single occupied bucket. -/
theorem raw_iter_scan_spec_witness :
    FrozenHashMap.rawYield 100 f1 = .value (some
      ((((List.range (f1.hashmap.table.table.bucket_mask + 1)).filter
          (ctrlOccupied f1.memory 16)).take f1.hashmap.table.table.items).map
        (fun j => 100 + 16 - (j + 1) * f1.table_layout.size))) ∧
    ((((List.range (f1.hashmap.table.table.bucket_mask + 1)).filter
        (ctrlOccupied f1.memory 16)).take f1.hashmap.table.table.items).map
      (fun j => 100 + 16 - (j + 1) * f1.table_layout.size)).length =
      f1.hashmap.table.table.items ∧
    ∀ x ∈ (((List.range (f1.hashmap.table.table.bucket_mask + 1)).filter
        (ctrlOccupied f1.memory 16)).take f1.hashmap.table.table.items).map
      (fun j => 100 + 16 - (j + 1) * f1.table_layout.size),
      100 ≤ x ∧ x < 100 + f1.memory.length :=
  raw_iter_scan_spec 100 f1 16 34 4 (by decide) (by decide) (by decide)
    (by decide) (by decide) (by decide)

/-- C9: the capture operation is a deterministic function of the source
bytes and metadata, and the raw-iteration addresses of a captured
snapshot, taken relative to the snapshot buffer's start address, do not
depend on that address: two captures of the identical physical table
state iterated at any two buffer addresses give identical relative
offset sequences. -/
theorem capture_order_stability (srcMem : Nat → Nat) (hm : HashMap)
    (tl : TableLayout) (f : FrozenHashMap) (addr1 addr2 off len k : Nat)
    (hcap : FrozenHashMap.construct_with srcMem hm tl = .value f)
    (hk : k < 64) (ha : f.table_layout.ctrl_align = 2 ^ k)
    (hmask : f.hashmap.table.table.bucket_mask ≠ 0)
    (hc : f.table_layout.calculate_layout_for
      (f.hashmap.table.table.bucket_mask + 1) = .value (some (len, off)))
    (hlen : len = f.memory.length)
    (hocc : f.hashmap.table.table.items ≤
      ((List.range (f.hashmap.table.table.bucket_mask + 1)).filter
        (ctrlOccupied f.memory off)).length) :
    f.rawYield addr1 = .value (some
      ((((List.range (f.hashmap.table.table.bucket_mask + 1)).filter
          (ctrlOccupied f.memory off)).take f.hashmap.table.table.items).map
        (fun j => addr1 + off - (j + 1) * f.table_layout.size))) ∧
    f.rawYield addr2 = .value (some
      ((((List.range (f.hashmap.table.table.bucket_mask + 1)).filter
          (ctrlOccupied f.memory off)).take f.hashmap.table.table.items).map
        (fun j => addr2 + off - (j + 1) * f.table_layout.size))) ∧
    ((((List.range (f.hashmap.table.table.bucket_mask + 1)).filter
        (ctrlOccupied f.memory off)).take f.hashmap.table.table.items).map
      (fun j => addr1 + off - (j + 1) * f.table_layout.size)).map
        (fun x => x - addr1) =
    ((((List.range (f.hashmap.table.table.bucket_mask + 1)).filter
        (ctrlOccupied f.memory off)).take f.hashmap.table.table.items).map
      (fun j => addr2 + off - (j + 1) * f.table_layout.size)).map
        (fun x => x - addr2) := by
  obtain ⟨hoff_eq, hsn, hlen_eq, hU, hpow⟩ :=
    calculate_layout_for_inv2 f.table_layout (f.hashmap.table.table.bucket_mask + 1)
      len off k hk ha hc
  refine ⟨yield_closed addr1 f off len k hk ha hmask hc hlen hocc,
    yield_closed addr2 f off len k hk ha hmask hc hlen hocc, ?_⟩
  rw [List.map_map, List.map_map]
  apply List.map_congr_left
  intro j hj
  have hj2 : j < f.hashmap.table.table.bucket_mask + 1 :=
    List.mem_range.mp (List.mem_filter.mp (List.mem_of_mem_take hj)).1
  have hmul : (j + 1) * f.table_layout.size ≤ off := by
    calc (j + 1) * f.table_layout.size
        ≤ (f.hashmap.table.table.bucket_mask + 1) * f.table_layout.size :=
          Nat.mul_le_mul_right _ (by omega)
      _ = f.table_layout.size * (f.hashmap.table.table.bucket_mask + 1) :=
          Nat.mul_comm _ _
      _ ≤ off := hsn
  simp only [Function.comp_apply]
  omega

/-- Witness for `capture_order_stability`: capturing the concrete source
table and iterating at buffer addresses 100 and 200 gives the same
relative offsets. -/
theorem capture_order_stability_witness :
    FrozenHashMap.rawYield 100 f1 = .value (some
      ((((List.range (f1.hashmap.table.table.bucket_mask + 1)).filter
          (ctrlOccupied f1.memory 16)).take f1.hashmap.table.table.items).map
        (fun j => 100 + 16 - (j + 1) * f1.table_layout.size))) ∧
    FrozenHashMap.rawYield 200 f1 = .value (some
      ((((List.range (f1.hashmap.table.table.bucket_mask + 1)).filter
          (ctrlOccupied f1.memory 16)).take f1.hashmap.table.table.items).map
        (fun j => 200 + 16 - (j + 1) * f1.table_layout.size))) ∧
    ((((List.range (f1.hashmap.table.table.bucket_mask + 1)).filter
        (ctrlOccupied f1.memory 16)).take f1.hashmap.table.table.items).map
      (fun j => 100 + 16 - (j + 1) * f1.table_layout.size)).map
        (fun x => x - 100) =
    ((((List.range (f1.hashmap.table.table.bucket_mask + 1)).filter
        (ctrlOccupied f1.memory 16)).take f1.hashmap.table.table.items).map
      (fun j => 200 + 16 - (j + 1) * f1.table_layout.size)).map
        (fun x => x - 200) :=
  capture_order_stability srcMem1 hm1 tl0 f1 100 200 16 34 4 (by decide)
    (by decide) (by decide) (by decide) (by decide) (by decide) (by decide)

/-- C1: round-trip identity.  For a live table (validity: power-of-two
alignment, `usize`-ranged metadata, successful layout computation,
control region preceded by the slots inside the allocation, and
`item_count` equal to the number of occupied control bytes among the
first `bucket_mask + 1`), capturing, encoding, decoding (which returns
the captured snapshot exactly) and restoring, then raw-iterating the
result and reinterpreting every yielded address as a slot of
`slot_stride` bytes, recovers exactly the table's entry list — and hence
its entry set.  The empty singleton round-trips to the empty entry
set. -/
theorem frozen_roundtrip (srcMem : Nat → Nat) (hm : HashMap) (tl : TableLayout)
    (addr len off k : Nat) (hk : k < 64) (ha : tl.ctrl_align = 2 ^ k)
    (hs : tl.size < U) (hb0 : hm.hash_builder.k0 < U) (hb1 : hm.hash_builder.k1 < U)
    (hbm : hm.table.table.bucket_mask < U) (hct : hm.table.table.ctrl < U)
    (hgl : hm.table.table.growth_left < U) (hit : hm.table.table.items < U)
    (haddr : 0 < addr)
    (hcase : hm.table.table.bucket_mask = 0 ∨
      (hm.table.table.bucket_mask ≠ 0 ∧
       tl.calculate_layout_for (hm.table.table.bucket_mask + 1) =
         .value (some (len, off)) ∧
       off ≤ hm.table.table.ctrl ∧
       ((List.range (hm.table.table.bucket_mask + 1)).filter
          (fun j => srcMem (hm.table.table.ctrl + j) &&& 0x80 == 0)).length =
         hm.table.table.items)) :
    ∃ f, FrozenHashMap.construct_with srcMem hm tl = .value f ∧
      FrozenHashMap.load f.store = some f ∧
      restoredEntries addr f = sourceEntries srcMem hm tl := by
  have halign : tl.ctrl_align < U := by
    rw [ha]
    exact Nat.pow_lt_pow_right (by omega) hk
  rcases hcase with h0 | ⟨hmask, hc, hctrl, hcount⟩
  · refine ⟨⟨tl, hm, []⟩, ?_, ?_, ?_⟩
    · unfold FrozenHashMap.construct_with
      rw [allocation_empty hm.table.table tl h0]
    · exact load_store _ hs halign hb0 hb1 hbm hct hgl hit
        (by show (0 : Nat) < U; exact Nat.two_pow_pos 64)
    · unfold restoredEntries
      rw [reconstruct_empty addr _ rfl]
      unfold sourceEntries
      rw [if_pos h0]
  · obtain ⟨hoff_eq, hsn, hlen_eq, hU, hpow⟩ :=
      calculate_layout_for_inv2 tl (hm.table.table.bucket_mask + 1) len off k hk ha hc
    have hGW : Group.WIDTH = 16 := rfl
    refine ⟨⟨tl, hm,
      (List.range len).map (fun i => srcMem (hm.table.table.ctrl - off + i))⟩,
      ?_, ?_, ?_⟩
    · unfold FrozenHashMap.construct_with
      rw [allocation_of_calc hm.table.table tl len off hmask hc]
    · exact load_store _ hs halign hb0 hb1 hbm hct hgl hit (by simpa using hU)
    · have hmemlen : ((List.range len).map
          (fun i => srcMem (hm.table.table.ctrl - off + i))).length = len := by simp
      have hmemne : ((List.range len).map
          (fun i => srcMem (hm.table.table.ctrl - off + i))) ≠ [] := by
        intro hnil
        have := congrArg List.length hnil
        simp at this
        omega
      have hre := reallocation_of_calc hm.table.table tl len off hmask hc
      unfold restoredEntries
      rw [reconstruct_eq addr
        ⟨tl, hm, (List.range len).map (fun i => srcMem (hm.table.table.ctrl - off + i))⟩
        off len hmemne hre hmemlen.symm (by omega)]
      dsimp only
      have hocc_eq : (List.range (hm.table.table.bucket_mask + 1)).filter
          (ctrlOccupied ((List.range len).map
            (fun i => srcMem (hm.table.table.ctrl - off + i))) off) =
          (List.range (hm.table.table.bucket_mask + 1)).filter
            (fun j => srcMem (hm.table.table.ctrl + j) &&& 0x80 == 0) := by
        apply List.filter_congr
        intro j hj
        have hjlt : j < hm.table.table.bucket_mask + 1 := List.mem_range.mp hj
        unfold ctrlOccupied
        rw [getD_range_map _ len (off + j) (by omega)]
        have e : hm.table.table.ctrl - off + (off + j) = hm.table.table.ctrl + j := by
          omega
        rw [e]
      rw [yield_closed addr _ off len k hk ha hmask hc hmemlen.symm
        (by rw [hocc_eq, hcount])]
      dsimp only
      rw [hocc_eq]
      have htake : ((List.range (hm.table.table.bucket_mask + 1)).filter
          (fun j => srcMem (hm.table.table.ctrl + j) &&& 0x80 == 0)).take
            hm.table.table.items =
          (List.range (hm.table.table.bucket_mask + 1)).filter
            (fun j => srcMem (hm.table.table.ctrl + j) &&& 0x80 == 0) := by
        rw [← hcount, List.take_length]
      rw [htake, List.map_map]
      unfold sourceEntries
      rw [if_neg hmask]
      apply List.map_congr_left
      intro j hj
      have hjlt : j < hm.table.table.bucket_mask + 1 :=
        List.mem_range.mp (List.mem_filter.mp hj).1
      have hmul : (j + 1) * tl.size ≤ off := by
        calc (j + 1) * tl.size
            ≤ (hm.table.table.bucket_mask + 1) * tl.size :=
              Nat.mul_le_mul_right _ (by omega)
          _ = tl.size * (hm.table.table.bucket_mask + 1) := Nat.mul_comm _ _
          _ ≤ off := hsn
      simp only [Function.comp_apply, readSlot, sourceSlotBytes]
      apply List.map_congr_left
      intro b hb
      have hblt : b < tl.size := List.mem_range.mp hb
      have hsz : tl.size ≤ (j + 1) * tl.size := Nat.le_mul_of_pos_left _ (by omega)
      have e1 : addr + off - (j + 1) * tl.size - addr + b =
          off - (j + 1) * tl.size + b := by omega
      rw [e1, getD_range_map _ len _ (by omega)]
      have e2 : hm.table.table.ctrl - off + (off - (j + 1) * tl.size + b) =
          hm.table.table.ctrl - (j + 1) * tl.size + b := by omega
      rw [e2]

/-- Witness for `frozen_roundtrip`: the concrete 2-bucket table held in
`srcMem1` round-trips through capture, store, load and restore at buffer
address 100, and raw iteration plus slot reinterpretation recovers its
single entry. -/
theorem frozen_roundtrip_witness :
    FrozenHashMap.construct_with srcMem1 hm1 tl0 = .value f1 ∧
    FrozenHashMap.load f1.store = some f1 ∧
    restoredEntries 100 f1 = sourceEntries srcMem1 hm1 tl0 := by
  obtain ⟨f, h1, h2, h3⟩ := frozen_roundtrip srcMem1 hm1 tl0 100 34 16 4
    (by decide) (by decide) (by decide) (by decide) (by decide) (by decide)
    (by decide) (by decide) (by decide) (by decide)
    (Or.inr ⟨by decide, by decide, by decide, by decide⟩)
  have hc : FrozenHashMap.construct_with srcMem1 hm1 tl0 = .value f1 := by decide
  rw [hc] at h1
  injection h1 with h
  subst h
  exact ⟨hc, h2, h3⟩
